import Mathlib

/-!
Verification development for the chain-source abstraction layer of an
LDK-based Lightning node (`src/chain/mod.rs`). The Rust code is shallowly
embedded: stateful methods become pure functions threading explicit state,
effects (published sync results, client registrations, archival calls)
become explicit outputs, and external collaborators (backends, wallet,
persistence) become input parameters describing their observed outcome.
-/

/-- Error variants surfaced by the chain-source layer (subset of the
crate-level `Error` enum that this module constructs). -/
inductive Error where
  | WalletOperationFailed
  | WalletOperationTimeout
  | TxSyncFailed
  | TxSyncTimeout
  | FeerateEstimationUpdateFailed
  | FeerateEstimationUpdateTimeout
  | PersistenceFailed
deriving DecidableEq, Repr

/-- Bitcoin network variants relevant to the fee-estimation fallback logic.
The `testnet` constructor stands for every network that is neither mainnet,
regtest nor signet (the catch-all match arm in the source). -/
inductive Network where
  | bitcoin
  | testnet
  | signet
  | regtest
deriving DecidableEq, Repr

/-- Embedding of `WalletSyncStatus`. The broadcast channel held by
`InProgress` is modelled by its observable state: the number of live
subscriber receivers. A fresh channel (`tokio::sync::broadcast::channel(1)`
with the initial receiver dropped) has zero receivers. -/
inductive WalletSyncStatus where
  | Completed
  | InProgress (receiverCount : Nat)
deriving DecidableEq, Repr

/-- Embedding of `WalletSyncStatus::register_or_subscribe_pending_sync`.
Returns the optional subscriber receiver (modelled by its index in the
channel) together with the updated status. -/
def register_or_subscribe_pending_sync :
    WalletSyncStatus → Option Nat × WalletSyncStatus
  | WalletSyncStatus.Completed =>
      (none, WalletSyncStatus.InProgress 0)
  | WalletSyncStatus.InProgress n =>
      (some n, WalletSyncStatus.InProgress (n + 1))

/-- Embedding of `WalletSyncStatus::propagate_result_to_subscribers`.
Returns the list of results delivered to subscribers (one copy per live
receiver; the source only calls `send` when `receiver_count() > 0`)
together with the updated status. -/
def propagate_result_to_subscribers (s : WalletSyncStatus)
    (res : Except Error Unit) : List (Except Error Unit) × WalletSyncStatus :=
  match s with
  | WalletSyncStatus.Completed => ([], WalletSyncStatus.Completed)
  | WalletSyncStatus.InProgress n =>
      (if 0 < n then List.replicate n res else [], WalletSyncStatus.Completed)

/-- Transaction ids, scripts and watched outputs are opaque to the logic
verified here; they are modelled as natural-number tokens. -/
abbrev Txid := Nat

/-- Script pubkeys, modelled as opaque tokens. -/
abbrev Script := Nat

/-- Watched outputs, modelled as opaque tokens. -/
abbrev WatchedOutput := Nat

/-- A registration event as observed by the underlying Electrum client. -/
inductive RegEvent where
  | tx (txid : Txid) (script_pubkey : Script)
  | output (o : WatchedOutput)
deriving DecidableEq, Repr

/-- The `ElectrumRuntimeClient` is modelled by the sequence of registration
events it has observed, in order. -/
structure Client where
  registrations : List RegEvent
deriving DecidableEq, Repr

/-- Embedding of `ElectrumRuntimeClient::register_tx`. -/
def Client.register_tx (c : Client) (txid : Txid) (script_pubkey : Script) :
    Client :=
  { registrations := c.registrations ++ [RegEvent.tx txid script_pubkey] }

/-- Embedding of `ElectrumRuntimeClient::register_output`. -/
def Client.register_output (c : Client) (o : WatchedOutput) : Client :=
  { registrations := c.registrations ++ [RegEvent.output o] }

/-- Embedding of `ElectrumRuntimeStatus`. -/
inductive ElectrumRuntimeStatus where
  | Started (client : Client)
  | Stopped (pending_registered_txs : List (Txid × Script))
      (pending_registered_outputs : List WatchedOutput)
deriving DecidableEq, Repr

/-- Embedding of `ElectrumRuntimeStatus::new`. -/
def ElectrumRuntimeStatus.new : ElectrumRuntimeStatus :=
  ElectrumRuntimeStatus.Stopped [] []

/-- Embedding of `ElectrumRuntimeStatus::start`. Construction of the
`ElectrumRuntimeClient` is an external effect; its outcome is passed in as
`newClientRes` (on success, the freshly built client, which has observed no
registrations yet at the call site). Returns the `Result` together with the
updated state. In the `Started` arm the source only fires a debug
assertion, leaves the state alone and returns `Ok(())`. -/
def ElectrumRuntimeStatus.start (st : ElectrumRuntimeStatus)
    (newClientRes : Except Error Client) :
    Except Error Unit × ElectrumRuntimeStatus :=
  match st with
  | ElectrumRuntimeStatus.Stopped txs outs =>
      match newClientRes with
      | Except.error e => (Except.error e, ElectrumRuntimeStatus.Stopped txs outs)
      | Except.ok client =>
          let client := txs.foldl (fun c p => c.register_tx p.1 p.2) client
          let client := outs.foldl (fun c o => c.register_output o) client
          (Except.ok (), ElectrumRuntimeStatus.Started client)
  | ElectrumRuntimeStatus.Started c =>
      (Except.ok (), ElectrumRuntimeStatus.Started c)

/-- Embedding of `ElectrumRuntimeStatus::stop`. -/
def ElectrumRuntimeStatus.stop (_st : ElectrumRuntimeStatus) :
    ElectrumRuntimeStatus :=
  ElectrumRuntimeStatus.new

/-- Embedding of `ElectrumRuntimeStatus::client`. -/
def ElectrumRuntimeStatus.client : ElectrumRuntimeStatus → Option Client
  | ElectrumRuntimeStatus.Started c => some c
  | ElectrumRuntimeStatus.Stopped _ _ => none

/-- Embedding of `ElectrumRuntimeStatus::register_tx`. -/
def ElectrumRuntimeStatus.register_tx (st : ElectrumRuntimeStatus)
    (txid : Txid) (script_pubkey : Script) : ElectrumRuntimeStatus :=
  match st with
  | ElectrumRuntimeStatus.Started c =>
      ElectrumRuntimeStatus.Started (c.register_tx txid script_pubkey)
  | ElectrumRuntimeStatus.Stopped txs outs =>
      ElectrumRuntimeStatus.Stopped (txs ++ [(txid, script_pubkey)]) outs

/-- Embedding of `ElectrumRuntimeStatus::register_output`. -/
def ElectrumRuntimeStatus.register_output (st : ElectrumRuntimeStatus)
    (o : WatchedOutput) : ElectrumRuntimeStatus :=
  match st with
  | ElectrumRuntimeStatus.Started c =>
      ElectrumRuntimeStatus.Started (c.register_output o)
  | ElectrumRuntimeStatus.Stopped txs outs =>
      ElectrumRuntimeStatus.Stopped txs (outs ++ [o])

/-- A `Filter` registration call arriving at the chain source (routed to
`ElectrumRuntimeStatus` in the Electrum variant). -/
inductive FilterOp where
  | regTx (txid : Txid) (script_pubkey : Script)
  | regOut (o : WatchedOutput)
deriving DecidableEq, Repr

/-- Applies one `Filter` call to the Electrum runtime state. -/
def applyFilterOp (st : ElectrumRuntimeStatus) (op : FilterOp) :
    ElectrumRuntimeStatus :=
  match op with
  | FilterOp.regTx t s => st.register_tx t s
  | FilterOp.regOut o => st.register_output o

/-- Applies a sequence of `Filter` calls to the Electrum runtime state. -/
def applyFilterOps (st : ElectrumRuntimeStatus) (ops : List FilterOp) :
    ElectrumRuntimeStatus :=
  ops.foldl applyFilterOp st

/-- The tx registrations contained in a sequence of filter calls, in order. -/
def txRegsOf (ops : List FilterOp) : List (Txid × Script) :=
  ops.filterMap (fun op =>
    match op with
    | FilterOp.regTx t s => some (t, s)
    | FilterOp.regOut _ => none)

/-- The output registrations contained in a sequence of filter calls, in
order. -/
def outRegsOf (ops : List FilterOp) : List WatchedOutput :=
  ops.filterMap (fun op =>
    match op with
    | FilterOp.regTx _ _ => none
    | FilterOp.regOut o => some o)

/-- The chain polling interval constant (`CHAIN_POLLING_INTERVAL_SECS`),
also the initial catch-up backoff. -/
def CHAIN_POLLING_INTERVAL_SECS : Nat := 2

/-- The maximum catch-up backoff (`MAX_BACKOFF_SECS`, local constant of the
Bitcoind catch-up loop). -/
def MAX_BACKOFF_SECS : Nat := 300

/-- Classification of a `synchronize_listeners` failure, as reported by the
block-sync collaborator (`BlockSourceErrorKind`). -/
inductive ErrKind where
  | transient
  | persistent
deriving DecidableEq, Repr

/-- Sleep schedule of the Bitcoind initial catch-up loop, given the list of
consecutive `synchronize_listeners` failures and the current backoff. A
transient failure sleeps for the current backoff and doubles it (capped at
`MAX_BACKOFF_SECS`); any other failure sleeps for `MAX_BACKOFF_SECS` and
leaves the backoff unchanged. -/
def catchUpSleeps : List ErrKind → Nat → List Nat
  | [], _ => []
  | ErrKind.transient :: rest, b =>
      b :: catchUpSleeps rest (min (b * 2) MAX_BACKOFF_SECS)
  | ErrKind.persistent :: rest, b =>
      MAX_BACKOFF_SECS :: catchUpSleeps rest b

/-- Embedding of the Bitcoind initial catch-up retry loop over a finite
trace of `synchronize_listeners` outcomes. Returns `some sleeps` when the
trace contains a success (the loop breaks there, having slept `sleeps` in
between), `none` when the trace was exhausted with the loop still
retrying. -/
def catchUpLoop : List (Except ErrKind Unit) → Nat → Option (List Nat)
  | [], _ => none
  | Except.ok _ :: _, _ => some []
  | Except.error ErrKind.transient :: rest, b =>
      (catchUpLoop rest (min (b * 2) MAX_BACKOFF_SECS)).map (fun l => b :: l)
  | Except.error ErrKind.persistent :: rest, b =>
      (catchUpLoop rest b).map (fun l => MAX_BACKOFF_SECS :: l)

/-- A best block as exposed by `current_best_block()`: a height and a block
hash (hashes modelled as opaque tokens). -/
structure BestBlock where
  height : Nat
  block_hash : Nat
deriving DecidableEq, Repr

/-- The chain listeners handed to `synchronize_listeners`, identified by
their role. -/
inductive ChainListenerKind where
  | onchainWallet
  | channelManager
  | outputSweeper
  | chainMonitor
deriving DecidableEq, Repr

/-- Embedding of `Iterator::min_by_key(|b| b.height)` over the channel
monitors' best blocks: Rust's `min_by` keeps the earlier element on ties,
so this returns the first element of minimal height. -/
def minByKeyHeight : List BestBlock → Option BestBlock
  | [] => none
  | x :: xs =>
      some (xs.foldl (fun acc b => if b.height < acc.height then b else acc) x)

/-- Embedding of the `chain_listeners` construction in the Bitcoind arm of
`continuously_sync_wallets`: the on-chain wallet, channel manager and
output sweeper seeded with their own best-block hashes, plus the chain
monitor seeded with the hash of the minimum-height monitor best block, when
any channel monitor exists. -/
def buildChainListeners (onchainWallet channelManager outputSweeper : BestBlock)
    (monitors : List BestBlock) : List (Nat × ChainListenerKind) :=
  let base :=
    [(onchainWallet.block_hash, ChainListenerKind.onchainWallet),
     (channelManager.block_hash, ChainListenerKind.channelManager),
     (outputSweeper.block_hash, ChainListenerKind.outputSweeper)]
  match (minByKeyHeight monitors).map BestBlock.block_hash with
  | some worst_channel_monitor_block_hash =>
      base ++ [(worst_channel_monitor_block_hash, ChainListenerKind.chainMonitor)]
  | none => base

/-- Which BDK request the on-chain wallet syncer issued to the backend. -/
inductive SyncCallKind where
  | fullScan
  | incrementalSync
deriving DecidableEq, Repr

/-- Outcome of the Esplora fetch-and-apply pipeline inside
`sync_onchain_wallet` (the `get_and_apply_wallet_update!` macro): the sync
future may time out, fail with an HTTP or Esplora error, the wallet update
may fail to apply, or everything may succeed with the subsequent metrics
persistence succeeding or failing. -/
inductive EsploraFetchApply where
  | timeout
  | httpErr
  | esploraErr
  | applyErr (e : Error)
  | applied (persistOk : Bool)
deriving DecidableEq, Repr

/-- State touched by the Esplora arm of `sync_onchain_wallet`: the on-chain
sync status and the on-chain wallet sync timestamp of the node metrics. -/
structure EsploraArmState where
  onchain_wallet_sync_status : WalletSyncStatus
  latest_onchain_wallet_sync_timestamp : Option Nat
deriving DecidableEq, Repr

/-- Embedding of the Esplora arm of `ChainSource::sync_onchain_wallet`.
Inputs: the current state, the result a subscriber would receive from the
broadcast channel (`none` models a channel error), the outcome of the
fetch-and-apply pipeline, and the current unix time. Output: the backend
request issued (if any), the returned result, the results published to
subscribers, and the new state. On `applied false` the metrics-persistence
failure propagates out of the function before subscribers are notified. -/
def sync_onchain_wallet_esplora (st : EsploraArmState)
    (recvRes : Option (Except Error Unit)) (outcome : EsploraFetchApply)
    (now : Option Nat) :
    Option SyncCallKind × Except Error Unit × List (Except Error Unit) ×
      EsploraArmState :=
  match register_or_subscribe_pending_sync st.onchain_wallet_sync_status with
  | (some _, status1) =>
      let res := match recvRes with
        | some r => r
        | none => Except.error Error.WalletOperationFailed
      (none, res, [], { st with onchain_wallet_sync_status := status1 })
  | (none, status1) =>
      let incremental_sync := st.latest_onchain_wallet_sync_timestamp.isSome
      let call := if incremental_sync then SyncCallKind.incrementalSync
        else SyncCallKind.fullScan
      match outcome with
      | EsploraFetchApply.timeout =>
          let res : Except Error Unit := Except.error Error.WalletOperationTimeout
          let (pub, status2) := propagate_result_to_subscribers status1 res
          (some call, res, pub,
            ⟨status2, st.latest_onchain_wallet_sync_timestamp⟩)
      | EsploraFetchApply.httpErr =>
          let res : Except Error Unit := Except.error Error.WalletOperationFailed
          let (pub, status2) := propagate_result_to_subscribers status1 res
          (some call, res, pub,
            ⟨status2, st.latest_onchain_wallet_sync_timestamp⟩)
      | EsploraFetchApply.esploraErr =>
          let res : Except Error Unit := Except.error Error.WalletOperationFailed
          let (pub, status2) := propagate_result_to_subscribers status1 res
          (some call, res, pub,
            ⟨status2, st.latest_onchain_wallet_sync_timestamp⟩)
      | EsploraFetchApply.applyErr e =>
          let res : Except Error Unit := Except.error e
          let (pub, status2) := propagate_result_to_subscribers status1 res
          (some call, res, pub,
            ⟨status2, st.latest_onchain_wallet_sync_timestamp⟩)
      | EsploraFetchApply.applied persistOk =>
          if persistOk then
            let res : Except Error Unit := Except.ok ()
            let (pub, status2) := propagate_result_to_subscribers status1 res
            (some call, res, pub, ⟨status2, now⟩)
          else
            (some call, Except.error Error.PersistenceFailed, [],
              ⟨status1, now⟩)

/-- Outcome of the Electrum fetch-and-apply pipeline inside
`sync_onchain_wallet`: the client update fetch may fail, applying the
update may fail, or everything may succeed with metrics persistence
succeeding or failing. Unlike the Esplora arm, a persistence failure here
is captured in the result closure and still propagated to subscribers. -/
inductive ElectrumFetchApply where
  | fetchErr (e : Error)
  | applyErr (e : Error)
  | applied (persistOk : Bool)
deriving DecidableEq, Repr

/-- State touched by the Electrum arm of `sync_onchain_wallet`. -/
structure ElectrumArmState where
  electrum_runtime_status : ElectrumRuntimeStatus
  onchain_wallet_sync_status : WalletSyncStatus
  latest_onchain_wallet_sync_timestamp : Option Nat
deriving DecidableEq, Repr

/-- Embedding of the Electrum arm of `ChainSource::sync_onchain_wallet`.
When the Electrum runtime is not started, the function returns
`Err(FeerateEstimationUpdateFailed)` before touching the sync status. -/
def sync_onchain_wallet_electrum (st : ElectrumArmState)
    (recvRes : Option (Except Error Unit)) (outcome : ElectrumFetchApply)
    (now : Option Nat) :
    Option SyncCallKind × Except Error Unit × List (Except Error Unit) ×
      ElectrumArmState :=
  match st.electrum_runtime_status.client with
  | none => (none, Except.error Error.FeerateEstimationUpdateFailed, [], st)
  | some _ =>
      match register_or_subscribe_pending_sync st.onchain_wallet_sync_status with
      | (some _, status1) =>
          let res := match recvRes with
            | some r => r
            | none => Except.error Error.WalletOperationFailed
          (none, res, [], { st with onchain_wallet_sync_status := status1 })
      | (none, status1) =>
          let incremental_sync := st.latest_onchain_wallet_sync_timestamp.isSome
          let call := if incremental_sync then SyncCallKind.incrementalSync
            else SyncCallKind.fullScan
          let (res, ts2) : Except Error Unit × Option Nat :=
            match outcome with
            | ElectrumFetchApply.fetchErr e =>
                (Except.error e, st.latest_onchain_wallet_sync_timestamp)
            | ElectrumFetchApply.applyErr e =>
                (Except.error e, st.latest_onchain_wallet_sync_timestamp)
            | ElectrumFetchApply.applied true => (Except.ok (), now)
            | ElectrumFetchApply.applied false =>
                (Except.error Error.PersistenceFailed, now)
          let (pub, status2) := propagate_result_to_subscribers status1 res
          (some call, res, pub,
            { st with
              onchain_wallet_sync_status := status2
              latest_onchain_wallet_sync_timestamp := ts2 })

/-- State touched by `update_fee_rate_estimates`: the fee-rate cache held
by the fee estimator (a map from confirmation target to adjusted fee rate
in sat/kwu, represented as an association list in insertion order) and the
fee-rate-cache timestamp of the node metrics. Confirmation targets are
abstract (`get_all_conf_targets` lives outside this module). -/
structure FeeRateState (α : Type) where
  cache : List (α × Nat)
  latest_fee_rate_cache_update_timestamp : Option Nat
deriving DecidableEq, Repr

/-- Outcome of the Esplora `get_fee_estimates` call (estimate entries are
opaque to this module; `convert_fee_rate` consumes them). -/
inductive EsploraFetchRes (E : Type) where
  | timeout
  | fetchErr
  | fetched (estimates : List E)
deriving DecidableEq, Repr

/-- Embedding of the Esplora arm of `ChainSource::update_fee_rate_estimates`.
Parameters: the confirmation targets (`get_all_conf_targets`), the
conversion `convert_fee_rate` keyed by target (the per-target default block
count is folded into it), the post-estimation adjustment
(`apply_post_estimation_adjustments`), the configured network, the backend
outcome, the current unix time, whether persisting the metrics succeeds,
and the current state. Per target, a conversion yielding nothing or less
than 1 sat/vB falls back to 1 sat/vB; sat/vB is turned into sat/kwu by
multiplying by 250 and truncating. -/
def update_fee_rate_estimates_esplora {α E : Type} (targets : List α)
    (convert_fee_rate : α → List E → Option ℚ) (adjust : α → Nat → Nat)
    (network : Network) (fetchRes : EsploraFetchRes E) (now : Option Nat)
    (persistOk : Bool) (st : FeeRateState α) :
    Except Error Unit × FeeRateState α :=
  match fetchRes with
  | EsploraFetchRes.timeout =>
      (Except.error Error.FeerateEstimationUpdateTimeout, st)
  | EsploraFetchRes.fetchErr =>
      (Except.error Error.FeerateEstimationUpdateFailed, st)
  | EsploraFetchRes.fetched estimates =>
      if estimates.isEmpty ∧ network = Network.bitcoin then
        (Except.error Error.FeerateEstimationUpdateFailed, st)
      else
        let new_fee_rate_cache := targets.map (fun target =>
          let converted_estimate_sat_vb : ℚ :=
            match convert_fee_rate target estimates with
            | none => 1
            | some converted => max converted 1
          let fee_rate := (converted_estimate_sat_vb * 250).floor.toNat
          (target, adjust target fee_rate))
        if persistOk then
          (Except.ok (), ⟨new_fee_rate_cache, now⟩)
        else
          (Except.error Error.PersistenceFailed, ⟨new_fee_rate_cache, now⟩)

/-- Outcome of one per-target fee estimate fetch in the Bitcoind arm
(`get_fee_rate_update!`): the RPC may time out, fail, or yield a rate in
sat/kwu. -/
inductive TargetFetchRes where
  | timeout
  | err
  | ok (rate : Nat)
deriving DecidableEq, Repr

/-- Embedding of the per-target loop of the Bitcoind arm of
`update_fee_rate_estimates`. Accumulates the new cache; `Except.ok none`
models the early `return Ok(())` taken on a fetch failure on networks other
than mainnet, regtest and signet (the cache swap never happens). -/
def bitcoindFeeLoop {α : Type} (fetch : α → TargetFetchRes)
    (adjust : α → Nat → Nat) (network : Network) :
    List α → List (α × Nat) → Except Error (Option (List (α × Nat)))
  | [], acc => Except.ok (some acc)
  | target :: rest, acc =>
      match fetch target with
      | TargetFetchRes.timeout =>
          Except.error Error.FeerateEstimationUpdateTimeout
      | TargetFetchRes.ok rate =>
          bitcoindFeeLoop fetch adjust network rest
            (acc ++ [(target, adjust target rate)])
      | TargetFetchRes.err =>
          match network with
          | Network.bitcoin => Except.error Error.FeerateEstimationUpdateFailed
          | Network.regtest =>
              bitcoindFeeLoop fetch adjust network rest
                (acc ++ [(target, adjust target 250)])
          | Network.signet =>
              bitcoindFeeLoop fetch adjust network rest
                (acc ++ [(target, adjust target 250)])
          | Network.testnet => Except.ok none

/-- Embedding of the Bitcoind arm of `ChainSource::update_fee_rate_estimates`.
On loop completion the cache is swapped and the timestamp recorded; the
early testnet return and the mid-loop errors leave the state untouched. -/
def update_fee_rate_estimates_bitcoind {α : Type} (targets : List α)
    (fetch : α → TargetFetchRes) (adjust : α → Nat → Nat) (network : Network)
    (now : Option Nat) (persistOk : Bool) (st : FeeRateState α) :
    Except Error Unit × FeeRateState α :=
  match bitcoindFeeLoop fetch adjust network targets [] with
  | Except.error e => (Except.error e, st)
  | Except.ok none => (Except.ok (), st)
  | Except.ok (some new_fee_rate_cache) =>
      if persistOk then
        (Except.ok (), ⟨new_fee_rate_cache, now⟩)
      else
        (Except.error Error.PersistenceFailed, ⟨new_fee_rate_cache, now⟩)

/-- Embedding of `periodically_archive_fully_resolved_monitors`. Inputs:
the archival interval constant (`RESOLVED_CHANNEL_MONITOR_ARCHIVAL_INTERVAL`,
defined in the configuration module), the channel manager's current
best-block height, whether persisting the metrics succeeds, and the stored
`latest_channel_monitor_archival_height`. Outputs: whether
`archive_fully_resolved_channel_monitors` was invoked, the new stored
height, and the returned result. -/
def periodically_archive_fully_resolved_monitors (interval cur_height : Nat)
    (persistOk : Bool) (latest_channel_monitor_archival_height : Option Nat) :
    Bool × Option Nat × Except Error Unit :=
  let should_archive :=
    latest_channel_monitor_archival_height.elim true
      (fun h => decide (cur_height ≥ h + interval))
  if should_archive then
    if persistOk then
      (true, some cur_height, Except.ok ())
    else
      (true, some cur_height, Except.error Error.PersistenceFailed)
  else
    (false, latest_channel_monitor_archival_height, Except.ok ())

/-- Helper: applying a sequence of filter calls to a `Stopped` state appends
the tx and output registrations to the respective queues in order. -/
lemma applyFilterOps_stopped (ops : List FilterOp) (txs : List (Txid × Script))
    (outs : List WatchedOutput) :
    applyFilterOps (ElectrumRuntimeStatus.Stopped txs outs) ops
      = ElectrumRuntimeStatus.Stopped (txs ++ txRegsOf ops)
          (outs ++ outRegsOf ops) := by
  induction ops generalizing txs outs with
  | nil => simp [applyFilterOps, txRegsOf, outRegsOf]
  | cons op rest ih =>
      cases op with
      | regTx t s =>
          show applyFilterOps
            (ElectrumRuntimeStatus.Stopped (txs ++ [(t, s)]) outs) rest = _
          rw [ih]
          simp [txRegsOf, outRegsOf]
      | regOut o =>
          show applyFilterOps
            (ElectrumRuntimeStatus.Stopped txs (outs ++ [o])) rest = _
          rw [ih]
          simp [txRegsOf, outRegsOf]

/-- Helper: replaying queued tx registrations on a client appends the
corresponding events in queue order. -/
lemma foldl_register_tx (c : Client) (txs : List (Txid × Script)) :
    txs.foldl (fun c p => c.register_tx p.1 p.2) c
      = ⟨c.registrations ++ txs.map (fun p => RegEvent.tx p.1 p.2)⟩ := by
  induction txs generalizing c with
  | nil => cases c; simp
  | cons p rest ih =>
      rw [List.foldl_cons, ih]
      simp [Client.register_tx]

/-- Helper: replaying queued output registrations on a client appends the
corresponding events in queue order. -/
lemma foldl_register_output (c : Client) (outs : List WatchedOutput) :
    outs.foldl (fun c o => c.register_output o) c
      = ⟨c.registrations ++ outs.map RegEvent.output⟩ := by
  induction outs generalizing c with
  | nil => cases c; simp
  | cons o rest ih =>
      rw [List.foldl_cons, ih]
      simp [Client.register_output]

/-- C1: `register_or_subscribe_pending_sync` returns `None` iff the status
is `Completed`, in which case the status becomes `InProgress` with a fresh
broadcast channel; on `InProgress` it returns a new subscriber receiver and
the status stays `InProgress` on the same channel. `propagate_result_to_subscribers`
on `Completed` changes nothing; on `InProgress` it delivers the result to
the subscribers when at least one receiver exists and in every case resets
the status to `Completed`, so a second propagation finds `Completed` and
does nothing: the `InProgress`-to-`Completed` transition happens exactly
once per in-flight episode. -/
theorem claim_C1_sync_status_state_machine :
    (∀ s : WalletSyncStatus,
      (register_or_subscribe_pending_sync s).1 = none
        ↔ s = WalletSyncStatus.Completed)
    ∧ register_or_subscribe_pending_sync WalletSyncStatus.Completed
        = (none, WalletSyncStatus.InProgress 0)
    ∧ (∀ n, register_or_subscribe_pending_sync (WalletSyncStatus.InProgress n)
        = (some n, WalletSyncStatus.InProgress (n + 1)))
    ∧ (∀ res, propagate_result_to_subscribers WalletSyncStatus.Completed res
        = ([], WalletSyncStatus.Completed))
    ∧ (∀ n res,
        (propagate_result_to_subscribers (WalletSyncStatus.InProgress n) res).2
          = WalletSyncStatus.Completed
        ∧ (propagate_result_to_subscribers (WalletSyncStatus.InProgress n) res).1
          = if 0 < n then List.replicate n res else [])
    ∧ (∀ s res res2,
        propagate_result_to_subscribers
          (propagate_result_to_subscribers s res).2 res2
          = ([], WalletSyncStatus.Completed)) := by
  refine ⟨?_, rfl, fun n => rfl, fun res => rfl, fun n res => ⟨rfl, rfl⟩, ?_⟩
  · intro s
    cases s <;> simp [register_or_subscribe_pending_sync]
  · intro s res res2
    cases s <;> rfl

/-- C2: any sequence of `register_tx` and `register_output` calls made
while the Electrum runtime is `Stopped` accumulates in the pending queues
in insertion order, and a subsequent successful `start` hands the freshly
constructed client exactly those registrations, txs first and then
outputs, each group in insertion order, leaving the state `Started` with
the queues drained. -/
theorem claim_C2_registration_replay :
    ∀ ops : List FilterOp,
      applyFilterOps ElectrumRuntimeStatus.new ops
        = ElectrumRuntimeStatus.Stopped (txRegsOf ops) (outRegsOf ops)
      ∧ (applyFilterOps ElectrumRuntimeStatus.new ops).start (Except.ok ⟨[]⟩)
        = (Except.ok (),
            ElectrumRuntimeStatus.Started
              ⟨(txRegsOf ops).map (fun p => RegEvent.tx p.1 p.2)
                ++ (outRegsOf ops).map RegEvent.output⟩) := by
  intro ops
  have h1 : applyFilterOps ElectrumRuntimeStatus.new ops
      = ElectrumRuntimeStatus.Stopped (txRegsOf ops) (outRegsOf ops) := by
    simpa [ElectrumRuntimeStatus.new] using applyFilterOps_stopped ops [] []
  refine ⟨h1, ?_⟩
  rw [h1]
  show ElectrumRuntimeStatus.start _ _ = _
  simp [ElectrumRuntimeStatus.start, foldl_register_tx, foldl_register_output]

/-- C3: in the Bitcoind initial catch-up loop, a transient failure sleeps
for the current backoff and then doubles it capped at 300 s, a
non-transient failure sleeps a flat 300 s with the backoff unchanged, the
initial backoff is 2 s, three consecutive transient failures produce
sleeps of exactly 2 s, 4 s and 8 s, and the loop retries until a
success. -/
theorem claim_C3_catchup_backoff :
    (∀ rest b, catchUpLoop (Except.error ErrKind.transient :: rest) b
      = (catchUpLoop rest (min (b * 2) MAX_BACKOFF_SECS)).map (fun l => b :: l))
    ∧ (∀ rest b, catchUpLoop (Except.error ErrKind.persistent :: rest) b
      = (catchUpLoop rest b).map (fun l => MAX_BACKOFF_SECS :: l))
    ∧ (∀ (failures : List ErrKind) (b : Nat),
        catchUpLoop (failures.map Except.error ++ [Except.ok ()]) b
          = some (catchUpSleeps failures b))
    ∧ catchUpLoop (List.replicate 3 (Except.error ErrKind.transient)
        ++ [Except.ok ()]) CHAIN_POLLING_INTERVAL_SECS = some [2, 4, 8]
    ∧ MAX_BACKOFF_SECS = 300 ∧ CHAIN_POLLING_INTERVAL_SECS = 2 := by
  have hrun : ∀ (failures : List ErrKind) (b : Nat),
      catchUpLoop (failures.map Except.error ++ [Except.ok ()]) b
        = some (catchUpSleeps failures b) := by
    intro failures
    induction failures with
    | nil => intro b; rfl
    | cons e rest ih =>
        intro b
        cases e with
        | transient => simp [catchUpLoop, catchUpSleeps, ih]
        | persistent => simp [catchUpLoop, catchUpSleeps, ih]
  refine ⟨fun rest b => rfl, fun rest b => rfl, hrun, ?_, rfl, rfl⟩
  rfl

/-- C9: calling `ElectrumRuntimeStatus::start` while the state is already
`Started` returns `Ok(())` and leaves the state unchanged, whatever the
outcome of a hypothetical client construction would have been: the
existing client is kept and no runtime error is surfaced. -/
theorem claim_C9_start_when_started_is_noop :
    ∀ (c : Client) (newClientRes : Except Error Client),
      ElectrumRuntimeStatus.start (ElectrumRuntimeStatus.Started c) newClientRes
        = (Except.ok (), ElectrumRuntimeStatus.Started c) :=
  fun _ _ => rfl

/-- C10: calling the Electrum arm of `sync_onchain_wallet` while the
Electrum runtime is `Stopped` returns `Err(FeerateEstimationUpdateFailed)`
before registering with the on-chain sync status: no backend request is
issued, nothing is published to subscribers, and the sync status and node
metrics are unchanged. -/
theorem claim_C10_electrum_sync_stopped_early_error :
    ∀ (txs : List (Txid × Script)) (outs : List WatchedOutput)
      (status : WalletSyncStatus) (ts : Option Nat)
      (recvRes : Option (Except Error Unit)) (outcome : ElectrumFetchApply)
      (now : Option Nat),
      sync_onchain_wallet_electrum
        ⟨ElectrumRuntimeStatus.Stopped txs outs, status, ts⟩ recvRes outcome now
        = (none, Except.error Error.FeerateEstimationUpdateFailed, [],
            ⟨ElectrumRuntimeStatus.Stopped txs outs, status, ts⟩) :=
  fun _ _ _ _ _ _ _ => rfl

/-- C5: when a `sync_onchain_wallet` invocation owns the work (the status
was `Completed` on entry), the backend request is a full scan iff
`latest_onchain_wallet_sync_timestamp` is `None` at the start of the work,
and an incremental sync otherwise — in both the Esplora and the Electrum
variant. -/
theorem claim_C5_full_scan_iff_no_timestamp :
    ∀ (recvRes : Option (Except Error Unit)) (now : Option Nat),
      (∀ (st : EsploraArmState) (outcome : EsploraFetchApply),
        st.onchain_wallet_sync_status = WalletSyncStatus.Completed →
        ((sync_onchain_wallet_esplora st recvRes outcome now).1
            = some SyncCallKind.fullScan
          ↔ st.latest_onchain_wallet_sync_timestamp = none))
      ∧ (∀ (st : ElectrumArmState) (outcome : ElectrumFetchApply) (c : Client),
          st.onchain_wallet_sync_status = WalletSyncStatus.Completed →
          st.electrum_runtime_status = ElectrumRuntimeStatus.Started c →
          ((sync_onchain_wallet_electrum st recvRes outcome now).1
              = some SyncCallKind.fullScan
            ↔ st.latest_onchain_wallet_sync_timestamp = none)) := by
  intro recvRes now
  constructor
  · rintro ⟨status, ts⟩ outcome h
    simp only at h
    subst h
    cases ts with
    | none =>
        cases outcome with
        | applied pOk =>
            cases pOk <;>
              simp [sync_onchain_wallet_esplora,
                register_or_subscribe_pending_sync]
        | _ =>
            simp [sync_onchain_wallet_esplora,
              register_or_subscribe_pending_sync]
    | some t =>
        cases outcome with
        | applied pOk =>
            cases pOk <;>
              simp [sync_onchain_wallet_esplora,
                register_or_subscribe_pending_sync]
        | _ =>
            simp [sync_onchain_wallet_esplora,
              register_or_subscribe_pending_sync]
  · rintro ⟨runtime, status, ts⟩ outcome c h hr
    simp only at h hr
    subst h
    subst hr
    cases ts with
    | none =>
        cases outcome with
        | applied pOk =>
            cases pOk <;>
              simp [sync_onchain_wallet_electrum, ElectrumRuntimeStatus.client,
                register_or_subscribe_pending_sync]
        | _ =>
            simp [sync_onchain_wallet_electrum, ElectrumRuntimeStatus.client,
              register_or_subscribe_pending_sync]
    | some t =>
        cases outcome with
        | applied pOk =>
            cases pOk <;>
              simp [sync_onchain_wallet_electrum, ElectrumRuntimeStatus.client,
                register_or_subscribe_pending_sync]
        | _ =>
            simp [sync_onchain_wallet_electrum, ElectrumRuntimeStatus.client,
              register_or_subscribe_pending_sync]

/-- C5 witness: a concrete owning invocation with no prior timestamp issues
a full scan, in both variants. -/
theorem claim_C5_witness :
    (sync_onchain_wallet_esplora ⟨WalletSyncStatus.Completed, none⟩ none
        (EsploraFetchApply.applied true) (some 7)).1
      = some SyncCallKind.fullScan
    ∧ (sync_onchain_wallet_electrum
        ⟨ElectrumRuntimeStatus.Started ⟨[]⟩, WalletSyncStatus.Completed, none⟩
        none (ElectrumFetchApply.applied true) (some 7)).1
      = some SyncCallKind.fullScan := by
  have h := claim_C5_full_scan_iff_no_timestamp none (some 7)
  exact ⟨(h.1 ⟨WalletSyncStatus.Completed, none⟩
      (EsploraFetchApply.applied true) rfl).2 rfl,
    (h.2 ⟨ElectrumRuntimeStatus.Started ⟨[]⟩, WalletSyncStatus.Completed, none⟩
      (ElectrumFetchApply.applied true) ⟨[]⟩ rfl rfl).2 rfl⟩

/-- C6: in the Esplora variant of `update_fee_rate_estimates`, an empty
estimate set on Bitcoin mainnet yields `FeerateEstimationUpdateFailed` and
leaves the fee-rate cache and the fee-rate-cache timestamp untouched. -/
theorem claim_C6_esplora_mainnet_empty_estimates :
    ∀ (α E : Type) (targets : List α) (convert : α → List E → Option ℚ)
      (adjust : α → Nat → Nat) (now : Option Nat) (persistOk : Bool)
      (st : FeeRateState α),
      update_fee_rate_estimates_esplora targets convert adjust Network.bitcoin
        (EsploraFetchRes.fetched []) now persistOk st
        = (Except.error Error.FeerateEstimationUpdateFailed, st) := by
  intro α E targets convert adjust now persistOk st
  simp [update_fee_rate_estimates_esplora]

/-- Helper: under persistent per-target failure on signet, the Bitcoind
fee loop substitutes 250 sat/kwu for every target and completes. -/
lemma bitcoindFeeLoop_signet_all_err {α : Type} (fetch : α → TargetFetchRes)
    (adjust : α → Nat → Nat) (hf : ∀ t, fetch t = TargetFetchRes.err) :
    ∀ (targets : List α) (acc : List (α × Nat)),
      bitcoindFeeLoop fetch adjust Network.signet targets acc
        = Except.ok (some (acc ++ targets.map (fun t => (t, adjust t 250)))) := by
  intro targets
  induction targets with
  | nil => intro acc; simp [bitcoindFeeLoop]
  | cons t rest ih =>
      intro acc
      simp [bitcoindFeeLoop, hf t, ih]

/-- Helper: under persistent per-target failure on regtest, the Bitcoind
fee loop substitutes 250 sat/kwu for every target and completes. -/
lemma bitcoindFeeLoop_regtest_all_err {α : Type} (fetch : α → TargetFetchRes)
    (adjust : α → Nat → Nat) (hf : ∀ t, fetch t = TargetFetchRes.err) :
    ∀ (targets : List α) (acc : List (α × Nat)),
      bitcoindFeeLoop fetch adjust Network.regtest targets acc
        = Except.ok (some (acc ++ targets.map (fun t => (t, adjust t 250)))) := by
  intro targets
  induction targets with
  | nil => intro acc; simp [bitcoindFeeLoop]
  | cons t rest ih =>
      intro acc
      simp [bitcoindFeeLoop, hf t, ih]

/-- C7: in the Bitcoind variant of `update_fee_rate_estimates`, a failing
per-target estimate fetch is handled per network: on mainnet the operation
fails with `FeerateEstimationUpdateFailed` (state untouched); on regtest
and signet the failing target is substituted with 250 sat/kwu (before the
usual post-estimation adjustment) and the loop continues, so under
persistent failure every target resolves to the substituted 250 sat/kwu;
on any other network the operation returns `Ok(())` immediately with the
cache untouched. -/
theorem claim_C7_bitcoind_network_fallback :
    ∀ (α : Type) (fetch : α → TargetFetchRes) (adjust : α → Nat → Nat)
      (now : Option Nat) (st : FeeRateState α),
      (∀ t, fetch t = TargetFetchRes.err) →
      (∀ (t : α) (rest : List α),
        update_fee_rate_estimates_bitcoind (t :: rest) fetch adjust
          Network.bitcoin now true st
          = (Except.error Error.FeerateEstimationUpdateFailed, st))
      ∧ (∀ targets : List α,
          update_fee_rate_estimates_bitcoind targets fetch adjust
            Network.signet now true st
            = (Except.ok (), ⟨targets.map (fun t => (t, adjust t 250)), now⟩))
      ∧ (∀ targets : List α,
          update_fee_rate_estimates_bitcoind targets fetch adjust
            Network.regtest now true st
            = (Except.ok (), ⟨targets.map (fun t => (t, adjust t 250)), now⟩))
      ∧ (∀ (t : α) (rest : List α),
          update_fee_rate_estimates_bitcoind (t :: rest) fetch adjust
            Network.testnet now true st = (Except.ok (), st))
      ∧ (∀ (fetch2 : α → TargetFetchRes) (t : α) (rest : List α)
          (acc : List (α × Nat)),
          fetch2 t = TargetFetchRes.err →
          bitcoindFeeLoop fetch2 adjust Network.signet (t :: rest) acc
              = bitcoindFeeLoop fetch2 adjust Network.signet rest
                  (acc ++ [(t, adjust t 250)])
            ∧ bitcoindFeeLoop fetch2 adjust Network.regtest (t :: rest) acc
              = bitcoindFeeLoop fetch2 adjust Network.regtest rest
                  (acc ++ [(t, adjust t 250)])) := by
  intro α fetch adjust now st hf
  refine ⟨?_, ?_, ?_, ?_, ?_⟩
  · intro t rest
    simp [update_fee_rate_estimates_bitcoind, bitcoindFeeLoop, hf t]
  · intro targets
    simp [update_fee_rate_estimates_bitcoind,
      bitcoindFeeLoop_signet_all_err fetch adjust hf targets []]
  · intro targets
    simp [update_fee_rate_estimates_bitcoind,
      bitcoindFeeLoop_regtest_all_err fetch adjust hf targets []]
  · intro t rest
    simp [update_fee_rate_estimates_bitcoind, bitcoindFeeLoop, hf t]
  · intro fetch2 t rest acc h2
    exact ⟨by simp [bitcoindFeeLoop, h2], by simp [bitcoindFeeLoop, h2]⟩

/-- C7 witness: with two targets and a backend that always fails, mainnet
fails closed, signet resolves both targets to 250 sat/kwu, and testnet
returns `Ok(())` with the state untouched. -/
theorem claim_C7_witness :
    update_fee_rate_estimates_bitcoind [0, 1] (fun _ => TargetFetchRes.err)
        (fun _ r => r) Network.bitcoin (some 9) true ⟨[(5, 99)], some 1⟩
      = (Except.error Error.FeerateEstimationUpdateFailed, ⟨[(5, 99)], some 1⟩)
    ∧ update_fee_rate_estimates_bitcoind [0, 1] (fun _ => TargetFetchRes.err)
        (fun _ r => r) Network.signet (some 9) true ⟨[(5, 99)], some 1⟩
      = (Except.ok (), ⟨[(0, 250), (1, 250)], some 9⟩)
    ∧ update_fee_rate_estimates_bitcoind [0, 1] (fun _ => TargetFetchRes.err)
        (fun _ r => r) Network.testnet (some 9) true ⟨[(5, 99)], some 1⟩
      = (Except.ok (), ⟨[(5, 99)], some 1⟩) := by
  have h := claim_C7_bitcoind_network_fallback Nat (fun _ => TargetFetchRes.err)
    (fun _ r => r) (some 9) ⟨[(5, 99)], some 1⟩ (fun _ => rfl)
  refine ⟨h.1 0 [1], ?_, h.2.2.2.1 0 [1]⟩
  simpa using h.2.1 [0, 1]

/-- C8: the monitor-archival helper invokes
`archive_fully_resolved_channel_monitors` iff no prior archival height is
recorded or the current height has reached the prior height plus the
archival interval; on archiving it records the current height and persists
the metrics, otherwise the metrics are unchanged. -/
theorem claim_C8_archival_gating :
    ∀ (interval cur_height : Nat) (persistOk : Bool) (latest : Option Nat),
      ((periodically_archive_fully_resolved_monitors interval cur_height
          persistOk latest).1 = true
        ↔ latest = none
          ∨ ∃ prior, latest = some prior ∧ prior + interval ≤ cur_height)
      ∧ ((periodically_archive_fully_resolved_monitors interval cur_height
            persistOk latest).1 = true →
          (periodically_archive_fully_resolved_monitors interval cur_height
              persistOk latest).2.1 = some cur_height
          ∧ (persistOk = true →
              (periodically_archive_fully_resolved_monitors interval cur_height
                persistOk latest).2.2 = Except.ok ())
          ∧ (persistOk = false →
              (periodically_archive_fully_resolved_monitors interval cur_height
                persistOk latest).2.2
                = Except.error Error.PersistenceFailed))
      ∧ ((periodically_archive_fully_resolved_monitors interval cur_height
            persistOk latest).1 = false →
          (periodically_archive_fully_resolved_monitors interval cur_height
              persistOk latest).2.1 = latest
          ∧ (periodically_archive_fully_resolved_monitors interval cur_height
              persistOk latest).2.2 = Except.ok ()) := by
  intro interval cur_height persistOk latest
  cases latest with
  | none =>
      cases persistOk <;>
        simp [periodically_archive_fully_resolved_monitors]
  | some prior =>
      by_cases h : prior + interval ≤ cur_height
      · cases persistOk <;>
          simp [periodically_archive_fully_resolved_monitors, h]
      · cases persistOk <;>
          simp [periodically_archive_fully_resolved_monitors, h]

/-- C8 witness: with interval 144, a prior archival at height 800 and a
current height of 1000 the helper archives, records 1000 and persists;
with a current height of 900 it does not archive and leaves the metrics
unchanged. -/
theorem claim_C8_witness :
    ((periodically_archive_fully_resolved_monitors 144 1000 true
        (some 800)).1 = true
      ∧ (periodically_archive_fully_resolved_monitors 144 1000 true
          (some 800)).2.1 = some 1000
      ∧ (periodically_archive_fully_resolved_monitors 144 1000 true
          (some 800)).2.2 = Except.ok ())
    ∧ ((periodically_archive_fully_resolved_monitors 144 900 true
        (some 800)).1 = false
      ∧ (periodically_archive_fully_resolved_monitors 144 900 true
          (some 800)).2.1 = some 800) := by
  have h1 := claim_C8_archival_gating 144 1000 true (some 800)
  have h2 := claim_C8_archival_gating 144 900 true (some 800)
  have harch : (periodically_archive_fully_resolved_monitors 144 1000 true
      (some 800)).1 = true :=
    h1.1.2 (Or.inr ⟨800, rfl, by decide⟩)
  have hno : (periodically_archive_fully_resolved_monitors 144 900 true
      (some 800)).1 = false := by decide
  refine ⟨⟨harch, (h1.2.1 harch).1, (h1.2.1 harch).2.1 rfl⟩,
    ⟨hno, (h2.2.2 hno).1⟩⟩

/-- Helper: `minByKeyHeight` returns the first element of minimal height:
the list splits around the returned element, every element before it is
strictly higher, and no element anywhere is lower. -/
lemma minByKeyHeight_first_min (x : BestBlock) (xs : List BestBlock) :
    ∃ b l1 l2, minByKeyHeight (x :: xs) = some b
      ∧ x :: xs = l1 ++ b :: l2
      ∧ (∀ c ∈ l1, b.height < c.height)
      ∧ (∀ c ∈ x :: xs, b.height ≤ c.height) := by
  induction xs generalizing x with
  | nil =>
      refine ⟨x, [], [], rfl, rfl, ?_, ?_⟩
      · intro c hc
        simp at hc
      · intro c hc
        simp at hc
        subst hc
        exact le_refl _
  | cons y t ih =>
      have hkey : minByKeyHeight (x :: y :: t)
          = minByKeyHeight ((if y.height < x.height then y else x) :: t) := rfl
      obtain ⟨b, l1', l2', hmin, hsplit, hlt, hle⟩ :=
        ih (if y.height < x.height then y else x)
      by_cases hyx : y.height < x.height
      · rw [if_pos hyx] at hkey hmin hsplit hle
        cases l1' with
        | nil =>
            rw [List.nil_append, List.cons.injEq] at hsplit
            obtain ⟨hb, hl2⟩ := hsplit
            subst hb
            subst hl2
            refine ⟨y, [x], t, ?_, rfl, ?_, ?_⟩
            · rw [hkey]; exact hmin
            · intro c hc
              simp at hc
              subst hc
              exact hyx
            · intro c hc
              rcases List.mem_cons.mp hc with rfl | hc2
              · exact le_of_lt hyx
              · exact hle c hc2
        | cons a l1'' =>
            rw [List.cons_append, List.cons.injEq] at hsplit
            obtain ⟨ha, ht⟩ := hsplit
            have hba : b.height < y.height := by
              rw [ha]
              exact hlt a (List.mem_cons_self _ _)
            refine ⟨b, x :: y :: l1'', l2', ?_, ?_, ?_, ?_⟩
            · rw [hkey]; exact hmin
            · simp [ht]
            · intro c hc
              rcases List.mem_cons.mp hc with rfl | hc2
              · exact lt_trans hba hyx
              · rcases List.mem_cons.mp hc2 with rfl | hc3
                · exact hba
                · exact hlt c (List.mem_cons_of_mem _ hc3)
            · intro c hc
              rcases List.mem_cons.mp hc with rfl | hc2
              · exact le_of_lt (lt_trans hba hyx)
              · exact hle c hc2
      · rw [if_neg hyx] at hkey hmin hsplit hle
        cases l1' with
        | nil =>
            rw [List.nil_append, List.cons.injEq] at hsplit
            obtain ⟨hb, hl2⟩ := hsplit
            subst hb
            subst hl2
            refine ⟨x, [], y :: t, ?_, rfl, ?_, ?_⟩
            · rw [hkey]; exact hmin
            · intro c hc
              simp at hc
            · intro c hc
              rcases List.mem_cons.mp hc with rfl | hc2
              · exact le_refl _
              · rcases List.mem_cons.mp hc2 with rfl | hc3
                · exact le_of_not_lt hyx
                · exact hle c (List.mem_cons_of_mem _ hc3)
        | cons a l1'' =>
            rw [List.cons_append, List.cons.injEq] at hsplit
            obtain ⟨ha, ht⟩ := hsplit
            have hba : b.height < x.height := by
              rw [ha]
              exact hlt a (List.mem_cons_self _ _)
            refine ⟨b, x :: y :: l1'', l2', ?_, ?_, ?_, ?_⟩
            · rw [hkey]; exact hmin
            · simp [ht]
            · intro c hc
              rcases List.mem_cons.mp hc with rfl | hc2
              · exact hba
              · rcases List.mem_cons.mp hc2 with rfl | hc3
                · exact lt_of_lt_of_le hba (le_of_not_lt hyx)
                · exact hlt c (List.mem_cons_of_mem _ hc3)
            · intro c hc
              rcases List.mem_cons.mp hc with rfl | hc2
              · exact le_of_lt hba
              · rcases List.mem_cons.mp hc2 with rfl | hc3
                · exact le_trans (le_of_lt hba) (le_of_not_lt hyx)
                · exact hle c (List.mem_cons_of_mem _ hc3)

/-- C4: the listener list passed to `synchronize_listeners` in the Bitcoind
catch-up always seeds the on-chain wallet, channel manager and output
sweeper with their own best-block hashes; it additionally contains the
chain monitor iff at least one channel monitor exists, seeded with the
best-block hash of the monitor of minimum height, ties broken by the
first-encountered monitor. -/
theorem claim_C4_bitcoind_listener_seeding :
    ∀ (w cm sw : BestBlock) (monitors : List BestBlock),
      (monitors = [] →
        buildChainListeners w cm sw monitors
          = [(w.block_hash, ChainListenerKind.onchainWallet),
             (cm.block_hash, ChainListenerKind.channelManager),
             (sw.block_hash, ChainListenerKind.outputSweeper)])
      ∧ (∀ (m : BestBlock) (rest : List BestBlock), monitors = m :: rest →
          ∃ b, minByKeyHeight monitors = some b
            ∧ buildChainListeners w cm sw monitors
              = [(w.block_hash, ChainListenerKind.onchainWallet),
                 (cm.block_hash, ChainListenerKind.channelManager),
                 (sw.block_hash, ChainListenerKind.outputSweeper),
                 (b.block_hash, ChainListenerKind.chainMonitor)]
            ∧ (∃ l1 l2, monitors = l1 ++ b :: l2
                ∧ ∀ c ∈ l1, b.height < c.height)
            ∧ ∀ c ∈ monitors, b.height ≤ c.height)
      ∧ (ChainListenerKind.chainMonitor
            ∈ (buildChainListeners w cm sw monitors).map Prod.snd
          ↔ monitors ≠ []) := by
  intro w cm sw monitors
  refine ⟨?_, ?_, ?_⟩
  · rintro rfl
    rfl
  · rintro m rest rfl
    obtain ⟨b, l1, l2, hmin, hsplit, hlt, hle⟩ := minByKeyHeight_first_min m rest
    refine ⟨b, hmin, ?_, ⟨l1, l2, hsplit, hlt⟩, hle⟩
    simp [buildChainListeners, hmin]
  · cases monitors with
    | nil => simp [buildChainListeners, minByKeyHeight]
    | cons m rest => simp [buildChainListeners, minByKeyHeight]

/-- C4 witness: with wallet, channel manager and sweeper at heights 800000,
800002 and 800001 and two channel monitors at heights 799998 and 799995,
the chain monitor entry is seeded with the hash of the height-799995
monitor. -/
theorem claim_C4_witness :
    ∃ b, minByKeyHeight
        [BestBlock.mk 799998 21, BestBlock.mk 799995 20] = some b
      ∧ buildChainListeners (BestBlock.mk 800000 10) (BestBlock.mk 800002 11)
          (BestBlock.mk 800001 12)
          [BestBlock.mk 799998 21, BestBlock.mk 799995 20]
        = [((BestBlock.mk 800000 10).block_hash, ChainListenerKind.onchainWallet),
           ((BestBlock.mk 800002 11).block_hash, ChainListenerKind.channelManager),
           ((BestBlock.mk 800001 12).block_hash, ChainListenerKind.outputSweeper),
           (b.block_hash, ChainListenerKind.chainMonitor)]
      ∧ (∃ l1 l2,
          [BestBlock.mk 799998 21, BestBlock.mk 799995 20] = l1 ++ b :: l2
          ∧ ∀ c ∈ l1, b.height < c.height)
      ∧ ∀ c ∈ [BestBlock.mk 799998 21, BestBlock.mk 799995 20],
          b.height ≤ c.height :=
  (claim_C4_bitcoind_listener_seeding (BestBlock.mk 800000 10)
    (BestBlock.mk 800002 11) (BestBlock.mk 800001 12)
    [BestBlock.mk 799998 21, BestBlock.mk 799995 20]).2.1
    (BestBlock.mk 799998 21) [BestBlock.mk 799995 20] rfl
